import Mathlib

/-!
# Rental-property utility-cost allocation: verification of the allocation engine

Shallow embedding of `app.py` (RentalPropertiesManager): persons, rooms,
cost periods, utilities and properties, the period-insertion validator,
the coverage validator, the daily-share distributor and the allocation
engine `calculate_shares`.

Modelling conventions:
* Dates (`datetime`) become `Int` day ordinals; `(d2 - d1).days` becomes
  `d2 - d1`.
* Monetary amounts and areas (`float`) become `ℚ`, so the algebraic content
  of the allocation formulas can be settled exactly.
* Python's `defaultdict(float)` share dictionaries become total functions
  `Person → ℚ` that are `0` outside the assigned keys.
* Python exceptions become `Except` / `Option` error values.  The unguarded
  `ZeroDivisionError` reachable in the per-area branch is modelled by the
  explicit error value `CalcError.zeroDivision`.
* Persons are dictionary keys by object identity in Python; we model a
  person as an opaque numeric identifier.
-/

/-- A person (occupant).  Python `Person` objects are compared by object
identity when used as dictionary keys, so the model only needs an opaque
identity; names and payment records play no role in the engine. -/
abbrev Person := Nat

/-- `Room` from `app.py`: a name, a floor area and the occupant list. -/
structure Room where
  name : String
  area : ℚ
  occupants : List Person
  deriving Repr

/-- `CostPeriod` from `app.py`: inclusive start/end dates and a cost.
The constructor invariant `start_date < end_date` is carried as the
separate predicate `CostPeriod.valid`. -/
structure CostPeriod where
  start : Int
  end_ : Int
  cost : ℚ
  deriving Repr

/-- The Python constructor rejects `start_date >= end_date`. -/
def CostPeriod.valid (p : CostPeriod) : Prop := p.start < p.end_

/-- `duration_days` property: `(self.end - self.start).days + 1` (inclusive). -/
def CostPeriod.duration_days (p : CostPeriod) : Int := p.end_ - p.start + 1

/-- The three values of `Utility.SHARING_TYPES`. -/
inductive SharingType where
  | per_person
  | per_area
  | per_room
  deriving DecidableEq, Repr

/-- `Utility` from `app.py`: name, sharing type, list of cost periods
(kept sorted by start date by `add_cost_period`). -/
structure Utility where
  name : String
  sharing_type : SharingType
  periods : List CostPeriod
  deriving Repr

/-- The two failure modes of `Utility._validate_new_period` (both are
raised as `PeriodError` in Python, with distinct messages; the spec names
them `OverlapError` and `AdjacencyError`). -/
inductive AddError where
  | overlap
  | adjacency
  deriving DecidableEq, Repr

/-- `Utility._validate_new_period`: first the overlap scan over all
existing periods, then the adjacency check (skipped when the utility has
no periods yet). -/
def validate_new_period (periods : List CostPeriod) (new_period : CostPeriod) :
    Option AddError :=
  if periods.any (fun existing =>
      decide (new_period.start ≤ existing.end_) &&
      decide (new_period.end_ ≥ existing.start)) then
    some .overlap
  else if !(periods.any (fun p =>
      decide (|new_period.start - p.end_| = 1) ||
      decide (|p.start - new_period.end_| = 1))) then
    if !periods.isEmpty then some .adjacency else none
  else
    none

/-- Sorting by start date, as `self.periods.sort(key=lambda p: p.start)` /
`sorted(utility.periods, key=lambda p: p.start)` (stable). -/
def sortPeriods (ps : List CostPeriod) : List CostPeriod :=
  ps.mergeSort (fun a b => decide (a.start ≤ b.start))

/-- `Utility.add_cost_period`: validate, append, re-sort by start date. -/
def Utility.add_cost_period (u : Utility) (period : CostPeriod) :
    Except AddError Utility :=
  match validate_new_period u.periods period with
  | some err => .error err
  | none => .ok { u with periods := sortPeriods (u.periods ++ [period]) }

/-- The symmetric inclusive interval-intersection test of the claim. -/
def overlapsSpec (np q : CostPeriod) : Prop :=
  np.start ≤ q.end_ ∧ np.end_ ≥ q.start

/-- The exactly-one-day-gap adjacency test of the claim. -/
def adjacentSpec (np q : CostPeriod) : Prop :=
  |np.start - q.end_| = 1 ∨ |q.start - np.end_| = 1

instance (np q : CostPeriod) : Decidable (overlapsSpec np q) := by
  unfold overlapsSpec; infer_instance

instance (np q : CostPeriod) : Decidable (adjacentSpec np q) := by
  unfold adjacentSpec; infer_instance

/-- A concrete utility with the single period day 0 – day 5. -/
def uElec : Utility := ⟨"electricity", .per_person, [⟨0, 5, 30⟩]⟩

/-- A concrete utility with no periods yet. -/
def uEmpty : Utility := ⟨"water", .per_room, []⟩

/-- The failure modes of the calculation path.  `coverageGap` is the
`PeriodError` raised by `Property._validate_utility_coverage` (the spec's
`CoverageGapError`); `noOccupants`, `zeroArea` and `noOccupiedRooms` are the
`ValueError`s raised by `Property._calculate_daily_shares`; `zeroDivision`
models the unguarded Python `ZeroDivisionError` in the per-area common-area
branch; `emptyPeriods` models the `ValueError` that `min()` raises when a
utility has no periods at all. -/
inductive CalcError where
  | coverageGap
  | noOccupants
  | zeroArea
  | noOccupiedRooms
  | zeroDivision
  | emptyPeriods
  deriving DecidableEq, Repr

/-- The scan over consecutive sorted periods in
`Property._validate_utility_coverage`: raise unless each consecutive pair is
separated by exactly one day. -/
def check_gaps : List CostPeriod → Except CalcError Unit
  | p :: q :: rest =>
    if q.start - p.end_ ≠ 1 then .error .coverageGap else check_gaps (q :: rest)
  | _ => .ok ()

/-- `Property._validate_utility_coverage`: the utility must start no later
than the window, end no earlier than the window, and its start-date-sorted
periods must have exactly-one-day gaps between consecutive pairs.  (With no
periods at all, Python's `min()` raises; modelled by `emptyPeriods`.) -/
def validate_utility_coverage (u : Utility) (start_date end_date : Int) :
    Except CalcError Unit :=
  match u.periods with
  | [] => .error .emptyPeriods
  | p :: ps =>
    let coverage_start := ps.foldl (fun a q => min a q.start) p.start
    let coverage_end := ps.foldl (fun a q => max a q.end_) p.end_
    if coverage_start > start_date then .error .coverageGap
    else if coverage_end < end_date then .error .coverageGap
    else check_gaps (sortPeriods u.periods)

/-- The exactly-one-day-gap predicate between two consecutive periods. -/
def gapOne (a b : CostPeriod) : Prop := b.start - a.end_ = 1

/-- `Property` from `app.py`: rooms, a common area, utilities. -/
structure Property where
  rooms : List Room
  common_area : ℚ
  utilities : List Utility

/-- `Property._get_occupants`: all occupants of all rooms, in room order. -/
def Property.get_occupants (pr : Property) : List Person :=
  pr.rooms.flatMap (fun room => room.occupants)

/-- `shares[person] += amt` executed once per occurrence of a person in
`people`, on a `defaultdict(float)` modelled as a total function. -/
def addShares (f : Person → ℚ) (people : List Person) (amt : ℚ) : Person → ℚ :=
  people.foldl (fun g q => fun r => if r = q then g r + amt else g r) f

/-- `Property._calculate_daily_shares`.  Guarded errors are the Python
`ValueError`s; the per-area common-area branch divides by `total_people`
without a guard, so `total_people = 0` there is the Python
`ZeroDivisionError`, modelled as `CalcError.zeroDivision`. -/
def Property.calculate_daily_shares (pr : Property) (sharing_type : SharingType)
    (daily_cost : ℚ) : Except CalcError (Person → ℚ) :=
  let occupants := pr.get_occupants
  let total_people : ℚ := occupants.length
  let total_private_area := (pr.rooms.map Room.area).sum
  let total_area := total_private_area + pr.common_area
  match sharing_type with
  | .per_person =>
    if occupants.length = 0 then .error .noOccupants
    else
      let per_person := daily_cost / total_people
      .ok (fun q => if q ∈ occupants then per_person else 0)
  | .per_area =>
    if total_area = 0 then .error .zeroArea
    else
      let base : Person → ℚ :=
        pr.rooms.foldl (fun f room =>
          if room.occupants.isEmpty then f
          else
            let room_share := room.area / total_area * daily_cost
            let per_person := room_share / (room.occupants.length : ℚ)
            addShares f room.occupants per_person) (fun _ => 0)
      if 0 < pr.common_area then
        if occupants.length = 0 then .error .zeroDivision
        else
          let common_share := pr.common_area / total_area * daily_cost
          let per_person_common := common_share / total_people
          .ok (addShares base occupants per_person_common)
      else .ok base
  | .per_room =>
    let occupied_rooms := pr.rooms.filter (fun room => !room.occupants.isEmpty)
    if occupied_rooms.isEmpty then .error .noOccupiedRooms
    else
      let per_room := daily_cost / (occupied_rooms.length : ℚ)
      .ok (occupied_rooms.foldl (fun f room =>
        addShares f room.occupants (per_room / (room.occupants.length : ℚ)))
        (fun _ => 0))

/-- The body of the inner `for period in utility.periods` loop of
`Property.calculate_shares`: skip periods outside the window, otherwise
clip the period to the window, derive the per-day cost from the period's
own full duration, distribute it, and accumulate scaled by the number of
active days. -/
def Property.process_period (pr : Property) (sharing_type : SharingType)
    (start_date end_date : Int) (shares : Person → ℚ) (period : CostPeriod) :
    Except CalcError (Person → ℚ) :=
  if period.end_ < start_date ∨ period.start > end_date then .ok shares
  else
    let effective_start := max period.start start_date
    let effective_end := min period.end_ end_date
    let days_active : Int := effective_end - effective_start + 1
    let cost_per_day := period.cost / (period.duration_days : ℚ)
    match pr.calculate_daily_shares sharing_type cost_per_day with
    | .error err => .error err
    | .ok daily_shares =>
      .ok (fun q => shares q + daily_shares q * (days_active : ℚ))

/-- The inner loop of `Property.calculate_shares` over one utility's
periods, with the running `shares` accumulator. -/
def Property.process_periods (pr : Property) (sharing_type : SharingType)
    (start_date end_date : Int) :
    (Person → ℚ) → List CostPeriod → Except CalcError (Person → ℚ)
  | shares, [] => .ok shares
  | shares, p :: rest =>
    match pr.process_period sharing_type start_date end_date shares p with
    | .error err => .error err
    | .ok shares' => pr.process_periods sharing_type start_date end_date shares' rest

/-- The outer loop of `Property.calculate_shares` over the utilities:
validate coverage, then process the utility's periods.  Any error aborts
the whole computation at once (a raised Python exception). -/
def Property.process_utilities (pr : Property) (start_date end_date : Int) :
    (Person → ℚ) → List Utility → Except CalcError (Person → ℚ)
  | shares, [] => .ok shares
  | shares, u :: rest =>
    match validate_utility_coverage u start_date end_date with
    | .error err => .error err
    | .ok _ =>
      match pr.process_periods u.sharing_type start_date end_date shares u.periods with
      | .error err => .error err
      | .ok shares' => pr.process_utilities start_date end_date shares' rest

/-- `Property.calculate_shares`.  (The Python body also computes a local
`total_days` that is never used; it has no observable effect and is
omitted.) -/
def Property.calculate_shares (pr : Property) (start_date end_date : Int) :
    Except CalcError (Person → ℚ) :=
  pr.process_utilities start_date end_date (fun _ => 0) pr.utilities

/-! ## Spec-side definitions

These follow the wording of the claims (window overlap, effective overlap,
inclusive day count, per-day cost from the period's own duration, expected
totals), to be compared with the embedded code above. -/

/-- Sum of the values of a share mapping over a list of persons. -/
def sumOver (L : List Person) (f : Person → ℚ) : ℚ := (L.map f).sum

/-- Sum of the values of a `calculate_shares` result (0 on error). -/
def resultSum (r : Except CalcError (Person → ℚ)) (L : List Person) : ℚ :=
  match r with
  | .ok f => sumOver L f
  | .error _ => 0

/-- The claims' window-overlap test: a period is not skipped when
`¬(period.end < start ∨ period.start > end)`. -/
def overlapsWindow (p : CostPeriod) (s e : Int) : Bool :=
  !(decide (p.end_ < s) || decide (p.start > e))

/-- The claims' inclusive day count of the effective overlap
`[max(period.start, start), min(period.end, end)]`. -/
def days_active_spec (p : CostPeriod) (s e : Int) : Int :=
  min p.end_ e - max p.start s + 1

/-- The claims' per-day cost: the period's cost over its own full
(inclusive) duration, not the overlap duration. -/
def cost_per_day_spec (p : CostPeriod) : ℚ := p.cost / (p.duration_days : ℚ)

/-- Sum, over the periods of a list that overlap the window, of
`cost_per_day * days_active` (the claims' expected per-utility total). -/
def windowTotal (ps : List CostPeriod) (s e : Int) : ℚ :=
  ((ps.filter (fun p => overlapsWindow p s e)).map
    (fun p => cost_per_day_spec p * (days_active_spec p s e : ℚ))).sum

/-- Total area of the property: sum of room areas plus the common area. -/
def Property.total_area (pr : Property) : ℚ :=
  (pr.rooms.map Room.area).sum + pr.common_area

/-- Total area of the zero-occupant rooms. -/
def unoccupiedPrivateArea (pr : Property) : ℚ :=
  ((pr.rooms.filter (fun room => room.occupants.isEmpty)).map Room.area).sum

/-- Total area of the occupied rooms. -/
def occupiedPrivateArea (pr : Property) : ℚ :=
  ((pr.rooms.filter (fun room => !room.occupants.isEmpty)).map Room.area).sum

/-- Fraction of each period's cost that the distributor actually hands out:
everything for `per_person` and `per_room`; for `per_area` the area of
zero-occupant rooms is charged to nobody. -/
def allocatedFraction (pr : Property) : SharingType → ℚ
  | .per_area => (pr.total_area - unoccupiedPrivateArea pr) / pr.total_area
  | _ => 1

/-- The claims' expected total over all utilities and overlapping periods
(`cost_per_day * days_active`, full allocation). -/
def claimedTotalSpec (pr : Property) (s e : Int) : ℚ :=
  (pr.utilities.map (fun u => windowTotal u.periods s e)).sum

/-- The actually-distributed total: the claimed per-utility totals scaled by
the utility's allocated fraction. -/
def amendedTotal (pr : Property) (s e : Int) : ℚ :=
  (pr.utilities.map (fun u =>
    allocatedFraction pr u.sharing_type * windowTotal u.periods s e)).sum

/-- Non-degeneracy of the property for a sharing strategy: what the
distributor needs in order not to raise. -/
def strategyPre (pr : Property) : SharingType → Prop
  | .per_person => pr.get_occupants ≠ []
  | .per_area => pr.total_area ≠ 0 ∧ (0 < pr.common_area → pr.get_occupants ≠ [])
  | .per_room => ∃ room ∈ pr.rooms, room.occupants ≠ []

/-- The example property of `app.py` in miniature: Alice (person 0) in a
40 m² room, an empty 20 m² room, 40 m² of common area, one per-area
utility with a single period covering days 0 – 9 at cost 100. -/
def pC1 : CostPeriod := ⟨0, 9, 100⟩

def uC1 : Utility := ⟨"electricity", .per_area, [pC1]⟩

def prC1 : Property :=
  ⟨[⟨"wohnzimmer", 40, [0]⟩, ⟨"schlafzimmer", 20, []⟩], 40, [uC1]⟩

/-- A degenerate one-room, one-occupant, per-person property used as a
witness input. -/
def prW : Property := ⟨[⟨"r", 30, [0]⟩], 0, [⟨"w", .per_person, [⟨0, 4, 50⟩]⟩]⟩

/-- Day 0 – day 9 heating period at cost 100. -/
def pC10 : CostPeriod := ⟨0, 9, 100⟩

def uC10 : Utility := ⟨"heating", .per_area, [pC10]⟩

/-- Positive total area (10 + 5), positive common area, zero occupants. -/
def prC10 : Property := ⟨[⟨"r", 10, []⟩], 5, [uC10]⟩


lemma any_overlap_iff (ps : List CostPeriod) (np : CostPeriod) :
    ps.any (fun existing =>
      decide (np.start ≤ existing.end_) && decide (np.end_ ≥ existing.start)) = true ↔
    ∃ q ∈ ps, overlapsSpec np q := by
  simp [overlapsSpec, List.any_eq_true]

lemma any_adjacent_iff (ps : List CostPeriod) (np : CostPeriod) :
    ps.any (fun p =>
      decide (|np.start - p.end_| = 1) || decide (|p.start - np.end_| = 1)) = true ↔
    ∃ q ∈ ps, adjacentSpec np q := by
  simp [adjacentSpec, List.any_eq_true]

lemma validate_new_period_overlap_iff (ps : List CostPeriod) (np : CostPeriod) :
    validate_new_period ps np = some .overlap ↔ ∃ q ∈ ps, overlapsSpec np q := by
  unfold validate_new_period
  cases hov : ps.any (fun existing =>
      decide (np.start ≤ existing.end_) && decide (np.end_ ≥ existing.start)) with
  | true =>
    simp only [hov, if_true]
    exact iff_of_true (by simp) ((any_overlap_iff ps np).mp hov)
  | false =>
    have hno : ¬ ∃ q ∈ ps, overlapsSpec np q := by
      rw [← any_overlap_iff ps np, hov]; simp
    simp only [hov, Bool.false_eq_true, if_false]
    refine iff_of_false ?_ hno
    cases ps.any (fun p =>
        decide (|np.start - p.end_| = 1) || decide (|p.start - np.end_| = 1)) <;>
      cases hmt : ps.isEmpty <;> simp [hmt]

lemma validate_new_period_adjacency_iff (ps : List CostPeriod) (np : CostPeriod) :
    validate_new_period ps np = some .adjacency ↔
      ps ≠ [] ∧ (¬ ∃ q ∈ ps, overlapsSpec np q) ∧ ¬ ∃ q ∈ ps, adjacentSpec np q := by
  unfold validate_new_period
  cases hov : ps.any (fun existing =>
      decide (np.start ≤ existing.end_) && decide (np.end_ ≥ existing.start)) with
  | true =>
    simp only [hov, if_true]
    exact iff_of_false (by simp) (by
      rintro ⟨-, hno, -⟩
      exact hno ((any_overlap_iff ps np).mp hov))
  | false =>
    have hno : ¬ ∃ q ∈ ps, overlapsSpec np q := by
      rw [← any_overlap_iff ps np, hov]; simp
    simp only [hov, Bool.false_eq_true, if_false]
    cases hadj : ps.any (fun p =>
        decide (|np.start - p.end_| = 1) || decide (|p.start - np.end_| = 1)) with
    | true =>
      refine iff_of_false (by simp [hadj]) ?_
      rintro ⟨-, -, hnadj⟩
      exact hnadj ((any_adjacent_iff ps np).mp hadj)
    | false =>
      have hnadj : ¬ ∃ q ∈ ps, adjacentSpec np q := by
        rw [← any_adjacent_iff ps np, hadj]; simp
      simp only [hadj, Bool.not_false, if_true]
      cases hmt : ps.isEmpty with
      | true =>
        have hnil : ps = [] := by simpa [List.isEmpty_iff] using hmt
        exact iff_of_false (by simp [hmt]) (by rintro ⟨hne, -, -⟩; exact hne hnil)
      | false =>
        have hne : ps ≠ [] := by simpa [List.isEmpty_iff] using hmt
        exact iff_of_true (by simp [hmt]) ⟨hne, hno, hnadj⟩

lemma add_cost_period_error_iff (u : Utility) (p : CostPeriod) (err : AddError) :
    u.add_cost_period p = .error err ↔ validate_new_period u.periods p = some err := by
  unfold Utility.add_cost_period
  cases h : validate_new_period u.periods p <;> simp

lemma add_cost_period_ok (u : Utility) (p : CostPeriod)
    (h : validate_new_period u.periods p = none) :
    ∃ u', u.add_cost_period p = .ok u' := by
  exact ⟨{ u with periods := sortPeriods (u.periods ++ [p]) },
    by simp [Utility.add_cost_period, h]⟩

/-- **C5**: `add_cost_period` fails with `OverlapError` exactly when the
new period overlaps some existing period under the symmetric inclusive
interval-intersection test `new.start ≤ existing.end ∧ new.end ≥ existing.start`;
in particular a single-day overlap (new period starting on the last covered
day) fails. -/
theorem claim5_overlap_error :
    (∀ (u : Utility) (p : CostPeriod),
        u.add_cost_period p = .error .overlap ↔
          ∃ q ∈ u.periods, p.start ≤ q.end_ ∧ p.end_ ≥ q.start)
    ∧ uElec.add_cost_period ⟨5, 8, 12⟩ = .error .overlap := by
  constructor
  · intro u p
    rw [add_cost_period_error_iff]
    simpa [overlapsSpec] using validate_new_period_overlap_iff u.periods p
  · rfl

/-- **C6**: `add_cost_period` fails with `AdjacencyError` exactly when the
utility already has a period and the new, non-overlapping period is not at an
exactly-one-day gap from any existing period; the first period never fails
this check, a two-day gap to a single existing period fails, and an exact
one-day gap succeeds. -/
theorem claim6_adjacency_error :
    (∀ (u : Utility) (p : CostPeriod),
        u.add_cost_period p = .error .adjacency ↔
          u.periods ≠ [] ∧
            (¬ ∃ q ∈ u.periods, p.start ≤ q.end_ ∧ p.end_ ≥ q.start) ∧
            ¬ ∃ q ∈ u.periods, |p.start - q.end_| = 1 ∨ |q.start - p.end_| = 1)
    ∧ (∀ (u : Utility) (p : CostPeriod), u.periods = [] →
        ∃ u', u.add_cost_period p = .ok u')
    ∧ uElec.add_cost_period ⟨7, 12, 12⟩ = .error .adjacency
    ∧ (∃ u', uElec.add_cost_period ⟨6, 12, 12⟩ = .ok u') := by
  refine ⟨?_, ?_, rfl, ?_⟩
  · intro u p
    rw [add_cost_period_error_iff]
    simpa [overlapsSpec, adjacentSpec] using
      validate_new_period_adjacency_iff u.periods p
  · intro u p h
    exact add_cost_period_ok u p (by simp [validate_new_period, h])
  · exact add_cost_period_ok uElec ⟨6, 12, 12⟩ (by rfl)

/-- Witness for the hypothesis-bearing conjunct of `claim6_adjacency_error`:
the empty utility accepts its first period. -/
theorem claim6_witness :
    uEmpty.periods = [] ∧ ∃ u', uEmpty.add_cost_period ⟨0, 5, 30⟩ = .ok u' :=
  ⟨rfl, claim6_adjacency_error.2.1 uEmpty ⟨0, 5, 30⟩ rfl⟩


lemma foldl_min_gt (ps : List CostPeriod) (a s : Int) :
    s < ps.foldl (fun b q => min b q.start) a ↔ s < a ∧ ∀ q ∈ ps, s < q.start := by
  induction ps generalizing a with
  | nil => simp
  | cons p rest ih =>
    rw [List.foldl_cons, ih]
    simp only [lt_min_iff, List.forall_mem_cons]
    tauto

lemma foldl_max_lt (ps : List CostPeriod) (a e : Int) :
    ps.foldl (fun b q => max b q.end_) a < e ↔ a < e ∧ ∀ q ∈ ps, q.end_ < e := by
  induction ps generalizing a with
  | nil => simp
  | cons p rest ih =>
    rw [List.foldl_cons, ih]
    simp only [max_lt_iff, List.forall_mem_cons]
    tauto

lemma check_gaps_ok_iff : ∀ L : List CostPeriod,
    check_gaps L = .ok () ↔ L.Chain' gapOne
  | [] => by simp [check_gaps]
  | [p] => by simp [check_gaps]
  | p :: q :: rest => by
    rw [check_gaps, List.chain'_cons, ← check_gaps_ok_iff (q :: rest)]
    by_cases h : q.start - p.end_ = 1 <;> simp [h, gapOne]

lemma check_gaps_cases (L : List CostPeriod) :
    check_gaps L = .ok () ∨ check_gaps L = .error .coverageGap := by
  induction L with
  | nil => simp [check_gaps]
  | cons p rest ih =>
    cases rest with
    | nil => simp [check_gaps]
    | cons q rest' =>
      rw [check_gaps]
      by_cases h : q.start - p.end_ = 1 <;> simp [h, ih]

lemma check_gaps_error_iff (L : List CostPeriod) :
    check_gaps L = .error .coverageGap ↔ ¬ L.Chain' gapOne := by
  rw [← check_gaps_ok_iff]
  rcases check_gaps_cases L with h | h <;> simp [h]

lemma validate_utility_coverage_cases (u : Utility) (s e : Int)
    (hne : u.periods ≠ []) :
    validate_utility_coverage u s e = .ok () ∨
      validate_utility_coverage u s e = .error .coverageGap := by
  unfold validate_utility_coverage
  cases hu : u.periods with
  | nil => exact absurd hu hne
  | cons p ps =>
    by_cases h1 : s < ps.foldl (fun a q => min a q.start) p.start
    · simp [h1]
    · by_cases h2 : ps.foldl (fun a q => max a q.end_) p.end_ < e
      · simp [h1, h2]
      · simpa [h1, h2] using check_gaps_cases (sortPeriods (p :: ps))

/-- The full characterisation of coverage-validation failure, for a
utility with at least one period. -/
lemma validate_utility_coverage_error_iff (u : Utility) (s e : Int)
    (p : CostPeriod) (ps : List CostPeriod) (hu : u.periods = p :: ps) :
    validate_utility_coverage u s e = .error .coverageGap ↔
      (∀ q ∈ u.periods, s < q.start) ∨ (∀ q ∈ u.periods, q.end_ < e) ∨
        ¬ (sortPeriods u.periods).Chain' gapOne := by
  unfold validate_utility_coverage
  rw [hu]
  by_cases h1 : s < ps.foldl (fun a q => min a q.start) p.start
  · rw [foldl_min_gt] at h1
    simp only [gt_iff_lt]
    rw [if_pos ((foldl_min_gt ps p.start s).mpr h1)]
    exact iff_of_true rfl (by left; rw [List.forall_mem_cons]; exact h1)
  · have h1' : ¬ (∀ q ∈ p :: ps, s < q.start) := by
      rw [List.forall_mem_cons, ← foldl_min_gt ps p.start s]
      exact h1
    simp only [gt_iff_lt]
    rw [if_neg h1]
    by_cases h2 : ps.foldl (fun a q => max a q.end_) p.end_ < e
    · rw [if_pos h2]
      rw [foldl_max_lt] at h2
      exact iff_of_true rfl
        (by right; left; rw [List.forall_mem_cons]; exact h2)
    · have h2' : ¬ (∀ q ∈ p :: ps, q.end_ < e) := by
        rw [List.forall_mem_cons, ← foldl_max_lt ps p.end_ e]
        exact h2
      rw [if_neg h2, check_gaps_error_iff]
      constructor
      · intro h; exact Or.inr (Or.inr h)
      · rintro (h | h | h)
        · exact absurd h h1'
        · exact absurd h h2'
        · exact h

/-- Coverage validation succeeds when some period starts no later than the
window, some period ends no earlier than the window, and the sorted periods
are exactly-one-day-gap contiguous. -/
lemma validate_utility_coverage_ok (u : Utility) (s e : Int)
    (hne : u.periods ≠ [])
    (hs : ∃ q ∈ u.periods, q.start ≤ s)
    (he : ∃ q ∈ u.periods, e ≤ q.end_)
    (hgap : (sortPeriods u.periods).Chain' gapOne) :
    validate_utility_coverage u s e = .ok () := by
  cases hu : u.periods with
  | nil => exact absurd hu hne
  | cons p ps =>
    rcases validate_utility_coverage_cases u s e hne with h | h
    · exact h
    · rw [validate_utility_coverage_error_iff u s e p ps hu] at h
      rcases h with h | h | h
      · obtain ⟨q, hq, hqs⟩ := hs
        exact absurd (h q hq) (by omega)
      · obtain ⟨q, hq, hqe⟩ := he
        exact absurd (h q hq) (by omega)
      · exact absurd hgap h

lemma not_chain'_gapOne_iff (L : List CostPeriod) :
    ¬ L.Chain' gapOne ↔
      ∃ i, ∃ h : i + 1 < L.length,
        (L.get ⟨i + 1, h⟩).start - (L.get ⟨i, Nat.lt_of_succ_lt h⟩).end_ ≠ 1 := by
  rw [List.chain'_iff_get]
  push_neg
  constructor
  · rintro ⟨i, h, hR⟩
    exact ⟨i, by omega, by simpa [gapOne] using hR⟩
  · rintro ⟨i, h, hR⟩
    exact ⟨i, by omega, by simpa [gapOne] using hR⟩

/-- **C4**: coverage validation of a nonempty utility fails with
`CoverageGapError` exactly when the earliest period start is later than the
window start (equivalently, every start is later), or the latest period end
is earlier than the window end (equivalently, every end is earlier), or some
consecutive pair of the start-date-sorted periods is not separated by exactly
one day; in particular a window reaching one day past the latest period end
always fails. -/
theorem claim4_coverage_gap (u : Utility) (hne : u.periods ≠ []) :
    (∀ s e : Int,
      validate_utility_coverage u s e = .error .coverageGap ↔
        (∀ q ∈ u.periods, s < q.start) ∨ (∀ q ∈ u.periods, q.end_ < e) ∨
          ∃ i, ∃ h : i + 1 < (sortPeriods u.periods).length,
            ((sortPeriods u.periods).get ⟨i + 1, h⟩).start -
              ((sortPeriods u.periods).get ⟨i, Nat.lt_of_succ_lt h⟩).end_ ≠ 1)
    ∧ (∀ s : Int, ∀ p ∈ u.periods, (∀ q ∈ u.periods, q.end_ ≤ p.end_) →
        validate_utility_coverage u s (p.end_ + 1) = .error .coverageGap) := by
  obtain ⟨ph, pt, hu⟩ := List.exists_cons_of_ne_nil hne
  · have hiff : ∀ s e : Int,
        validate_utility_coverage u s e = .error .coverageGap ↔
          (∀ q ∈ u.periods, s < q.start) ∨ (∀ q ∈ u.periods, q.end_ < e) ∨
            ∃ i, ∃ h : i + 1 < (sortPeriods u.periods).length,
              ((sortPeriods u.periods).get ⟨i + 1, h⟩).start -
                ((sortPeriods u.periods).get ⟨i, Nat.lt_of_succ_lt h⟩).end_ ≠ 1 := by
      intro s e
      rw [validate_utility_coverage_error_iff u s e ph pt hu,
        not_chain'_gapOne_iff]
    refine ⟨hiff, ?_⟩
    intro s p hp hmax
    rw [hiff s (p.end_ + 1)]
    right; left
    intro q hq
    have := hmax q hq
    omega

/-- Witness for `claim4_coverage_gap`: the one-period utility `uElec`
(days 0 – 5) fails coverage validation for the window ending on day 6. -/
theorem claim4_witness :
    uElec.periods ≠ [] ∧
      validate_utility_coverage uElec 0 6 = .error CalcError.coverageGap := by
  refine ⟨by simp [uElec], ?_⟩
  have h := (claim4_coverage_gap uElec (by simp [uElec])).2 0 ⟨0, 5, 30⟩
    (by simp [uElec]) (by simp [uElec])
  simpa using h


lemma addShares_apply (people : List Person) (f : Person → ℚ) (amt : ℚ)
    (r : Person) :
    addShares f people amt r = f r + amt * (people.count r : ℚ) := by
  induction people generalizing f with
  | nil => simp [addShares]
  | cons p ps ih =>
    show addShares (fun r' => if r' = p then f r' + amt else f r') ps amt r = _
    rw [ih]
    by_cases h : r = p <;> simp [h, List.count_cons] <;> ring

lemma sumOver_add (L : List Person) (f g : Person → ℚ) :
    sumOver L (fun q => f q + g q) = sumOver L f + sumOver L g := by
  simp [sumOver, List.sum_map_add]

lemma sumOver_mul_right (L : List Person) (f : Person → ℚ) (c : ℚ) :
    sumOver L (fun q => f q * c) = sumOver L f * c := by
  simp [sumOver, List.sum_map_mul_right]

lemma sumOver_congr (L : List Person) (f g : Person → ℚ)
    (h : ∀ q ∈ L, f q = g q) : sumOver L f = sumOver L g := by
  unfold sumOver
  rw [List.map_congr_left h]

lemma sum_ite_single (L : List Person) (p : Person) (c : ℚ)
    (hnd : L.Nodup) (hp : p ∈ L) :
    (L.map (fun r => if p = r then c else 0)).sum = c := by
  induction L with
  | nil => simp at hp
  | cons a rest ih =>
    obtain ⟨hna, hndr⟩ := List.nodup_cons.mp hnd
    rcases List.mem_cons.mp hp with h | h
    · subst h
      simp only [List.map_cons, List.sum_cons, if_pos rfl]
      have hz : (rest.map (fun r => if p = r then c else 0)).sum = 0 :=
        List.sum_eq_zero (by
          intro x hx
          obtain ⟨r, hr, rfl⟩ := List.mem_map.mp hx
          have hpr : p ≠ r := fun hc => hna (hc ▸ hr)
          simp [hpr])
      rw [hz]
      simp
    · have hpa : p ≠ a := fun hc => hna (hc ▸ h)
      simp only [List.map_cons, List.sum_cons, if_neg hpa]
      rw [ih hndr h]
      ring

lemma sum_count (L people : List Person) (hnd : L.Nodup)
    (hsub : ∀ q ∈ people, q ∈ L) :
    (L.map (fun r => (people.count r : ℚ))).sum = (people.length : ℚ) := by
  induction people with
  | nil => simp
  | cons p ps ih =>
    have hsum : (L.map (fun r => (List.count r (p :: ps) : ℚ))).sum =
        (L.map (fun r => (List.count r ps : ℚ))).sum +
          (L.map (fun r => if p = r then (1 : ℚ) else 0)).sum := by
      rw [← List.sum_map_add]
      apply congrArg
      apply List.map_congr_left
      intro r hr
      rw [List.count_cons]
      by_cases h : p = r <;> simp [h] <;> push_cast <;> ring
    rw [hsum, ih (fun q hq => hsub q (List.mem_cons_of_mem p hq)),
      sum_ite_single L p 1 hnd (hsub p (List.mem_cons_self p ps))]
    simp only [List.length_cons]
    push_cast
    ring

lemma sumOver_addShares (L people : List Person) (f : Person → ℚ) (amt : ℚ)
    (hnd : L.Nodup) (hsub : ∀ q ∈ people, q ∈ L) :
    sumOver L (addShares f people amt) = sumOver L f + amt * (people.length : ℚ) := by
  have h1 : sumOver L (addShares f people amt) =
      sumOver L f + sumOver L (fun r => amt * (people.count r : ℚ)) := by
    rw [← sumOver_add]
    exact sumOver_congr L _ _ (fun q _ => addShares_apply people f amt q)
  rw [h1]
  congr 1
  unfold sumOver
  rw [List.sum_map_mul_left, sum_count L people hnd hsub]

lemma foldl_rooms_apply (rooms : List Room) (g : Room → ℚ) (f0 : Person → ℚ)
    (r : Person) :
    (rooms.foldl (fun f room => addShares f room.occupants (g room)) f0) r
      = f0 r + (rooms.map (fun room => g room * (room.occupants.count r : ℚ))).sum := by
  induction rooms generalizing f0 with
  | nil => simp
  | cons room rest ih =>
    rw [List.foldl_cons, ih, addShares_apply]
    simp only [List.map_cons, List.sum_cons]
    ring

lemma sumOver_foldl_rooms (L : List Person) (rooms : List Room) (g : Room → ℚ)
    (f0 : Person → ℚ) (hnd : L.Nodup)
    (hsub : ∀ room ∈ rooms, ∀ q ∈ room.occupants, q ∈ L) :
    sumOver L (rooms.foldl (fun f room => addShares f room.occupants (g room)) f0)
      = sumOver L f0 +
        (rooms.map (fun room => g room * (room.occupants.length : ℚ))).sum := by
  induction rooms generalizing f0 with
  | nil => simp
  | cons room rest ih =>
    rw [List.foldl_cons,
      ih _ (fun rm hm => hsub rm (List.mem_cons_of_mem _ hm)),
      sumOver_addShares L room.occupants f0 (g room) hnd
        (hsub room (List.mem_cons_self _ _))]
    simp only [List.map_cons, List.sum_cons]
    ring

lemma per_area_fold_guard (rooms : List Room) (g : Room → ℚ) (f0 : Person → ℚ) :
    rooms.foldl (fun f room =>
        if room.occupants.isEmpty then f
        else addShares f room.occupants (g room)) f0
      = rooms.foldl (fun f room => addShares f room.occupants (g room)) f0 := by
  induction rooms generalizing f0 with
  | nil => rfl
  | cons room rest ih =>
    rw [List.foldl_cons, List.foldl_cons]
    cases h : room.occupants.isEmpty with
    | true =>
      have hnil : room.occupants = [] := List.isEmpty_iff.mp h
      rw [if_pos rfl]
      have : addShares f0 room.occupants (g room) = f0 := by
        rw [hnil]; rfl
      rw [this, ih]
    | false =>
      rw [if_neg (by simp [h])]
      exact ih _

lemma rooms_term_sum (rooms : List Room) (A C : ℚ) :
    (rooms.map (fun room =>
        room.area / A * C / (room.occupants.length : ℚ) *
          (room.occupants.length : ℚ))).sum
      = ((rooms.filter (fun room => !room.occupants.isEmpty)).map Room.area).sum
          / A * C := by
  induction rooms with
  | nil => simp
  | cons room rest ih =>
    simp only [List.map_cons, List.sum_cons, List.filter_cons]
    cases h : room.occupants.isEmpty with
    | true =>
      have hnil : room.occupants = [] := List.isEmpty_iff.mp h
      rw [ih]
      simp [hnil]
    | false =>
      have hlen : (room.occupants.length : ℚ) ≠ 0 := by
        have hne : room.occupants ≠ [] := by
          intro hc; rw [hc] at h; simp at h
        have : room.occupants.length ≠ 0 :=
          fun hc => hne (List.length_eq_zero.mp hc)
        exact_mod_cast this
      rw [div_mul_cancel₀ _ hlen, ih]
      simp only [h, Bool.not_false, if_true, List.map_cons, List.sum_cons]
      ring

lemma sum_per_room_const (rooms : List Room) (c : ℚ)
    (h : ∀ room ∈ rooms, room.occupants ≠ []) :
    (rooms.map (fun room =>
        c / (room.occupants.length : ℚ) * (room.occupants.length : ℚ))).sum
      = (rooms.length : ℚ) * c := by
  induction rooms with
  | nil => simp
  | cons room rest ih =>
    have hlen : (room.occupants.length : ℚ) ≠ 0 := by
      have : room.occupants.length ≠ 0 := fun hc =>
        (h room (List.mem_cons_self _ _)) (List.length_eq_zero.mp hc)
      exact_mod_cast this
    rw [List.map_cons, List.sum_cons, div_mul_cancel₀ _ hlen,
      ih (fun rm hm => h rm (List.mem_cons_of_mem _ hm))]
    simp only [List.length_cons]
    push_cast
    ring

lemma flatMap_sublist {RS' RS : List Room} (h : List.Sublist RS' RS) :
    List.Sublist (RS'.flatMap (fun room => room.occupants))
      (RS.flatMap (fun room => room.occupants)) := by
  induction h with
  | slnil => simp
  | cons room _ ih =>
    rw [List.flatMap_cons]
    exact ih.trans (List.sublist_append_right _ _)
  | cons₂ room _ ih =>
    rw [List.flatMap_cons, List.flatMap_cons]
    exact ih.append_left _

lemma occupants_mem_flatMap {RS : List Room} {room : Room} {q : Person}
    (hroom : room ∈ RS) (hq : q ∈ room.occupants) :
    q ∈ RS.flatMap (fun room => room.occupants) :=
  List.mem_flatMap.mpr ⟨room, hroom, hq⟩

/-- When the combined occupant list is duplicate-free, a person occupies at
most one room, so the room-indexed count sum collapses to that room's term. -/
lemma sum_count_unique (RS : List Room) (g : Room → ℚ) (q : Person)
    (hnd : (RS.flatMap (fun room => room.occupants)).Nodup)
    (room : Room) (hroom : room ∈ RS) (hq : q ∈ room.occupants) :
    (RS.map (fun rm => g rm * (rm.occupants.count q : ℚ))).sum = g room := by
  induction RS with
  | nil => cases hroom
  | cons R rest ih =>
    rw [List.flatMap_cons] at hnd
    obtain ⟨hR, hrest, hdisj⟩ := by
      rw [List.nodup_append] at hnd
      exact hnd
    rw [List.map_cons, List.sum_cons]
    rcases List.mem_cons.mp hroom with h | h
    · subst h
      rw [List.count_eq_one_of_mem hR hq]
      have hz : (rest.map (fun rm => g rm * (rm.occupants.count q : ℚ))).sum = 0 := by
        apply List.sum_eq_zero
        intro x hx
        obtain ⟨rm, hm, rfl⟩ := List.mem_map.mp hx
        have hqnot : q ∉ rm.occupants := by
          intro hc
          exact hdisj hq (occupants_mem_flatMap hm hc)
        rw [List.count_eq_zero.mpr hqnot]
        simp
      rw [hz]
      simp
    · have hqnotR : q ∉ R.occupants := by
        intro hc
        exact hdisj hc (occupants_mem_flatMap h hq)
      rw [List.count_eq_zero.mpr hqnotR, ih hrest h]
      simp

lemma count_zero_of_not_mem_occ (RS : List Room) (g : Room → ℚ) (q : Person)
    (hq : ∀ room ∈ RS, q ∉ room.occupants) :
    (RS.map (fun rm => g rm * (rm.occupants.count q : ℚ))).sum = 0 := by
  apply List.sum_eq_zero
  intro x hx
  obtain ⟨rm, hm, rfl⟩ := List.mem_map.mp hx
  rw [List.count_eq_zero.mpr (hq rm hm)]
  simp

lemma sumOver_zero (L : List Person) : sumOver L (fun _ => 0) = 0 := by
  simp [sumOver]

lemma sumOver_const (L : List Person) (c : ℚ) :
    sumOver L (fun _ => c) = (L.length : ℚ) * c := by
  induction L with
  | nil => simp [sumOver]
  | cons p rest ih =>
    simp only [sumOver, List.map_cons, List.sum_cons] at *
    rw [ih]
    simp only [List.length_cons]
    push_cast
    ring

lemma length_ne_zero_q {α : Type} {l : List α} (h : l ≠ []) :
    ((l.length : ℚ)) ≠ 0 := by
  have : l.length ≠ 0 := fun hc => h (List.length_eq_zero.mp hc)
  exact_mod_cast this


/-- The per-person distributor returns the uniform mapping. -/
lemma daily_shares_per_person_eq (pr : Property) (C : ℚ)
    (hocc : pr.get_occupants ≠ []) :
    pr.calculate_daily_shares .per_person C =
      .ok (fun q => if q ∈ pr.get_occupants
        then C / (pr.get_occupants.length : ℚ) else 0) := by
  have hlen : pr.get_occupants.length ≠ 0 :=
    fun hc => hocc (List.length_eq_zero.mp hc)
  simp only [Property.calculate_daily_shares]
  rw [if_neg hlen]

/-- The per-person distributor fails exactly on zero occupants. -/
lemma daily_shares_per_person_error_iff (pr : Property) (C : ℚ) :
    pr.calculate_daily_shares .per_person C = .error .noOccupants ↔
      pr.get_occupants = [] := by
  by_cases h : pr.get_occupants.length = 0
  · have : pr.get_occupants = [] := List.length_eq_zero.mp h
    simp only [Property.calculate_daily_shares]
    rw [if_pos h]
    simp [this]
  · have : pr.get_occupants ≠ [] := fun hc => h (by simp [hc])
    simp only [Property.calculate_daily_shares]
    rw [if_neg h]
    simp [this]

/-- The per-area distributor: success, zero allocation outside the
occupants, and the total actually distributed. -/
lemma daily_shares_per_area_ok (pr : Property) (C : ℚ)
    (hA : pr.total_area ≠ 0)
    (hcomm : 0 < pr.common_area → pr.get_occupants ≠ []) :
    ∃ f, pr.calculate_daily_shares .per_area C = .ok f ∧
      (∀ q, q ∉ pr.get_occupants → f q = 0) ∧
      (pr.get_occupants.Nodup →
        sumOver pr.get_occupants f =
          (occupiedPrivateArea pr +
              (if 0 < pr.common_area then pr.common_area else 0)) /
            pr.total_area * C) := by
  have hA' : ((pr.rooms.map Room.area).sum + pr.common_area) ≠ 0 := hA
  have hsubL : ∀ room ∈ pr.rooms, ∀ q ∈ room.occupants, q ∈ pr.get_occupants :=
    fun room hm q hq => occupants_mem_flatMap hm hq
  have hnotin : ∀ q, q ∉ pr.get_occupants → ∀ room ∈ pr.rooms, q ∉ room.occupants :=
    fun q hq room hm hc => hq (occupants_mem_flatMap hm hc)
  simp only [Property.calculate_daily_shares]
  rw [if_neg hA']
  rw [per_area_fold_guard pr.rooms
    (fun room => room.area / ((pr.rooms.map Room.area).sum + pr.common_area) * C /
      (room.occupants.length : ℚ)) (fun _ => 0)]
  by_cases hcpos : 0 < pr.common_area
  · have hoccne := hcomm hcpos
    have hlen : pr.get_occupants.length ≠ 0 :=
      fun hc => hoccne (List.length_eq_zero.mp hc)
    have hlenQ : ((pr.get_occupants.length : ℚ)) ≠ 0 := length_ne_zero_q hoccne
    rw [if_pos hcpos, if_neg hlen]
    refine ⟨_, rfl, ?_, ?_⟩
    · intro q hq
      rw [addShares_apply, foldl_rooms_apply,
        count_zero_of_not_mem_occ pr.rooms _ q (hnotin q hq),
        List.count_eq_zero.mpr hq]
      simp
    · intro hnd
      rw [sumOver_addShares _ _ _ _ hnd (fun q hq => hq),
        sumOver_foldl_rooms _ _ _ _ hnd hsubL, sumOver_zero,
        rooms_term_sum pr.rooms ((pr.rooms.map Room.area).sum + pr.common_area) C,
        div_mul_cancel₀ _ hlenQ]
      rw [if_pos hcpos]
      show _ = (occupiedPrivateArea pr + pr.common_area) / pr.total_area * C
      unfold occupiedPrivateArea Property.total_area
      ring
  · rw [if_neg hcpos]
    refine ⟨_, rfl, ?_, ?_⟩
    · intro q hq
      rw [foldl_rooms_apply, count_zero_of_not_mem_occ pr.rooms _ q (hnotin q hq)]
      simp
    · intro hnd
      rw [sumOver_foldl_rooms _ _ _ _ hnd hsubL, sumOver_zero,
        rooms_term_sum pr.rooms ((pr.rooms.map Room.area).sum + pr.common_area) C]
      rw [if_neg hcpos]
      show _ = (occupiedPrivateArea pr + 0) / pr.total_area * C
      unfold occupiedPrivateArea Property.total_area
      ring

/-- The per-room distributor: success, zero allocation outside the
occupants, the exact per-occupant share, and the total distributed. -/
lemma daily_shares_per_room_ok (pr : Property) (C : ℚ)
    (hocc : ∃ room ∈ pr.rooms, room.occupants ≠ []) :
    ∃ f, pr.calculate_daily_shares .per_room C = .ok f ∧
      (∀ q, q ∉ pr.get_occupants → f q = 0) ∧
      (pr.get_occupants.Nodup → sumOver pr.get_occupants f = C) ∧
      (pr.get_occupants.Nodup → ∀ room ∈ pr.rooms, room.occupants ≠ [] →
        ∀ q ∈ room.occupants,
          f q = C / ((pr.rooms.filter (fun rm => !rm.occupants.isEmpty)).length : ℚ) /
            (room.occupants.length : ℚ)) := by
  obtain ⟨room0, hm0, hne0⟩ := hocc
  have hm0f : room0 ∈ pr.rooms.filter (fun rm => !rm.occupants.isEmpty) := by
    rw [List.mem_filter]
    exact ⟨hm0, by simp [hne0]⟩
  have hORne : pr.rooms.filter (fun rm => !rm.occupants.isEmpty) ≠ [] :=
    List.ne_nil_of_mem hm0f
  have hORnotEmpty :
      ¬ ((pr.rooms.filter (fun rm => !rm.occupants.isEmpty)).isEmpty = true) := by
    simpa [List.isEmpty_iff] using hORne
  have hORlenQ : (((pr.rooms.filter (fun rm => !rm.occupants.isEmpty)).length : ℚ)) ≠ 0 :=
    length_ne_zero_q hORne
  have hORsub : ∀ rm ∈ pr.rooms.filter (fun r => !r.occupants.isEmpty), rm ∈ pr.rooms :=
    fun rm hm => List.mem_of_mem_filter hm
  simp only [Property.calculate_daily_shares]
  rw [if_neg hORnotEmpty]
  refine ⟨_, rfl, ?_, ?_, ?_⟩
  · intro q hq
    rw [foldl_rooms_apply, count_zero_of_not_mem_occ _ _ q
      (fun rm hm hc => hq (occupants_mem_flatMap (hORsub rm hm) hc))]
    simp
  · intro hnd
    rw [sumOver_foldl_rooms _ _ _ _ hnd
      (fun rm hm q hq => occupants_mem_flatMap (hORsub rm hm) hq), sumOver_zero,
      sum_per_room_const _ _ (fun rm hm => by
        have := (List.mem_filter.mp hm).2
        intro hc
        rw [hc] at this
        simp at this)]
    rw [zero_add, mul_comm, div_mul_cancel₀ _ hORlenQ]
  · intro hnd room hroom hrne q hq
    have hndOR : ((pr.rooms.filter (fun rm => !rm.occupants.isEmpty)).flatMap
        (fun rm => rm.occupants)).Nodup :=
      (flatMap_sublist (List.filter_sublist _)).nodup hnd
    have hroomOR : room ∈ pr.rooms.filter (fun rm => !rm.occupants.isEmpty) := by
      rw [List.mem_filter]
      exact ⟨hroom, by simp [hrne]⟩
    rw [foldl_rooms_apply, sum_count_unique _ _ q hndOR room hroomOR hq]
    simp

/-- The per-room distributor fails exactly when no room is occupied. -/
lemma daily_shares_per_room_error_iff (pr : Property) (C : ℚ) :
    pr.calculate_daily_shares .per_room C = .error .noOccupiedRooms ↔
      ∀ room ∈ pr.rooms, room.occupants = [] := by
  simp only [Property.calculate_daily_shares]
  by_cases h : (pr.rooms.filter (fun rm => !rm.occupants.isEmpty)).isEmpty = true
  · rw [if_pos h]
    rw [List.isEmpty_iff, List.filter_eq_nil_iff] at h
    refine iff_of_true rfl ?_
    intro room hm
    have := h room hm
    simpa [List.isEmpty_iff] using this
  · rw [if_neg h]
    refine iff_of_false (by simp) ?_
    intro hall
    apply h
    rw [List.isEmpty_iff, List.filter_eq_nil_iff]
    intro room hm
    simp [hall room hm]

/-- The unguarded division by zero: per-area, nonzero total area, positive
common area, no occupants anywhere. -/
lemma daily_shares_per_area_zeroDivision (pr : Property) (C : ℚ)
    (hA : pr.total_area ≠ 0) (hc : 0 < pr.common_area)
    (hocc : pr.get_occupants = []) :
    pr.calculate_daily_shares .per_area C = .error .zeroDivision := by
  have hA' : ((pr.rooms.map Room.area).sum + pr.common_area) ≠ 0 := hA
  simp only [Property.calculate_daily_shares]
  rw [if_neg hA', if_pos hc, if_pos (by simp [hocc])]

lemma filter_area_split (rooms : List Room) :
    ((rooms.filter (fun r => !r.occupants.isEmpty)).map Room.area).sum +
      ((rooms.filter (fun r => r.occupants.isEmpty)).map Room.area).sum =
      (rooms.map Room.area).sum := by
  induction rooms with
  | nil => simp
  | cons room rest ih =>
    simp only [List.filter_cons]
    cases h : room.occupants.isEmpty with
    | true =>
      simp [h]
      rw [← ih]
      ring
    | false =>
      simp [h]
      rw [← ih]
      ring

/-- Whatever the strategy, when its precondition holds the distributor
succeeds and hands out exactly `allocatedFraction` of the daily cost. -/
lemma daily_shares_ok_sum (pr : Property) (st : SharingType) (C : ℚ)
    (hnd : pr.get_occupants.Nodup) (hca : 0 ≤ pr.common_area)
    (hpre : strategyPre pr st) :
    ∃ f, pr.calculate_daily_shares st C = .ok f ∧
      sumOver pr.get_occupants f = allocatedFraction pr st * C := by
  cases st with
  | per_person =>
    have hocc : pr.get_occupants ≠ [] := hpre
    refine ⟨_, daily_shares_per_person_eq pr C hocc, ?_⟩
    rw [sumOver_congr _ _ (fun _ => C / (pr.get_occupants.length : ℚ))
      (fun q hq => if_pos hq), sumOver_const, mul_comm,
      div_mul_cancel₀ _ (length_ne_zero_q hocc)]
    simp [allocatedFraction]
  | per_area =>
    obtain ⟨hA, hcomm⟩ := hpre
    obtain ⟨f, hok, -, hsum⟩ := daily_shares_per_area_ok pr C hA hcomm
    refine ⟨f, hok, ?_⟩
    rw [hsum hnd]
    have hsplit := filter_area_split pr.rooms
    have harea : occupiedPrivateArea pr +
        (if 0 < pr.common_area then pr.common_area else 0) =
        pr.total_area - unoccupiedPrivateArea pr := by
      unfold occupiedPrivateArea unoccupiedPrivateArea Property.total_area
      by_cases hcpos : 0 < pr.common_area
      · rw [if_pos hcpos, ← hsplit]; ring
      · have : pr.common_area = 0 := le_antisymm (not_lt.mp hcpos) hca
        rw [if_neg hcpos, this, ← hsplit]; ring
    rw [harea]
    simp [allocatedFraction]
  | per_room =>
    obtain ⟨f, hok, -, hsum, -⟩ := daily_shares_per_room_ok pr C hpre
    refine ⟨f, hok, ?_⟩
    rw [hsum hnd]
    simp [allocatedFraction]


lemma process_period_skip (pr : Property) (st : SharingType) (s e : Int)
    (shares : Person → ℚ) (p : CostPeriod) (h : p.end_ < s ∨ p.start > e) :
    pr.process_period st s e shares p = .ok shares := by
  unfold Property.process_period
  rw [if_pos h]

lemma process_period_active (pr : Property) (st : SharingType) (s e : Int)
    (shares : Person → ℚ) (p : CostPeriod) (h : ¬ (p.end_ < s ∨ p.start > e)) :
    pr.process_period st s e shares p =
      match pr.calculate_daily_shares st (cost_per_day_spec p) with
      | .error err => .error err
      | .ok daily_shares =>
        .ok (fun q => shares q + daily_shares q * ((days_active_spec p s e : Int) : ℚ)) := by
  unfold Property.process_period
  rw [if_neg h]
  rfl

lemma overlapsWindow_false_iff (p : CostPeriod) (s e : Int) :
    overlapsWindow p s e = false ↔ (p.end_ < s ∨ p.start > e) := by
  simp only [overlapsWindow, Bool.not_eq_false', Bool.or_eq_true, decide_eq_true_eq]

lemma overlapsWindow_true_iff (p : CostPeriod) (s e : Int) :
    overlapsWindow p s e = true ↔ ¬ (p.end_ < s ∨ p.start > e) := by
  simp only [overlapsWindow, Bool.not_eq_true', Bool.or_eq_false_iff,
    decide_eq_false_iff_not]
  omega

lemma windowTotal_nil (s e : Int) : windowTotal [] s e = 0 := by
  simp [windowTotal]

lemma windowTotal_cons (p : CostPeriod) (ps : List CostPeriod) (s e : Int) :
    windowTotal (p :: ps) s e =
      (if overlapsWindow p s e
        then cost_per_day_spec p * ((days_active_spec p s e : Int) : ℚ) else 0) +
        windowTotal ps s e := by
  unfold windowTotal
  rw [List.filter_cons]
  cases h : overlapsWindow p s e <;> simp [h]

lemma process_period_ok_sum (pr : Property) (st : SharingType) (s e : Int)
    (shares : Person → ℚ) (p : CostPeriod)
    (hnd : pr.get_occupants.Nodup) (hca : 0 ≤ pr.common_area)
    (hpre : strategyPre pr st) :
    ∃ shares', pr.process_period st s e shares p = .ok shares' ∧
      sumOver pr.get_occupants shares' = sumOver pr.get_occupants shares +
        allocatedFraction pr st *
          (if overlapsWindow p s e
            then cost_per_day_spec p * ((days_active_spec p s e : Int) : ℚ) else 0) := by
  by_cases h : p.end_ < s ∨ p.start > e
  · refine ⟨shares, process_period_skip pr st s e shares p h, ?_⟩
    rw [if_neg (by rw [← overlapsWindow_false_iff] at h; simp [h])]
    ring
  · obtain ⟨f, hok, hsum⟩ :=
      daily_shares_ok_sum pr st (cost_per_day_spec p) hnd hca hpre
    refine ⟨_, by rw [process_period_active pr st s e shares p h, hok], ?_⟩
    rw [if_pos (by rw [overlapsWindow_true_iff]; exact h)]
    rw [sumOver_add, sumOver_mul_right, hsum]
    ring

lemma process_periods_ok_sum (pr : Property) (st : SharingType) (s e : Int)
    (hnd : pr.get_occupants.Nodup) (hca : 0 ≤ pr.common_area)
    (hpre : strategyPre pr st) :
    ∀ (ps : List CostPeriod) (shares : Person → ℚ),
      ∃ shares', pr.process_periods st s e shares ps = .ok shares' ∧
        sumOver pr.get_occupants shares' = sumOver pr.get_occupants shares +
          allocatedFraction pr st * windowTotal ps s e := by
  intro ps
  induction ps with
  | nil =>
    intro shares
    exact ⟨shares, rfl, by rw [windowTotal_nil]; ring⟩
  | cons p rest ih =>
    intro shares
    obtain ⟨shares₁, hok₁, hsum₁⟩ :=
      process_period_ok_sum pr st s e shares p hnd hca hpre
    obtain ⟨shares', hok', hsum'⟩ := ih shares₁
    refine ⟨shares', ?_, ?_⟩
    · unfold Property.process_periods
      rw [hok₁]
      exact hok'
    · rw [hsum', hsum₁, windowTotal_cons]
      ring

lemma process_utilities_ok_sum (pr : Property) (s e : Int)
    (hnd : pr.get_occupants.Nodup) (hca : 0 ≤ pr.common_area) :
    ∀ (us : List Utility) (shares : Person → ℚ),
      (∀ u ∈ us, strategyPre pr u.sharing_type) →
      (∀ u ∈ us, u.periods ≠ []) →
      (∀ u ∈ us, ∃ q ∈ u.periods, q.start ≤ s) →
      (∀ u ∈ us, ∃ q ∈ u.periods, e ≤ q.end_) →
      (∀ u ∈ us, (sortPeriods u.periods).Chain' gapOne) →
      ∃ shares', pr.process_utilities s e shares us = .ok shares' ∧
        sumOver pr.get_occupants shares' = sumOver pr.get_occupants shares +
          (us.map (fun u =>
            allocatedFraction pr u.sharing_type * windowTotal u.periods s e)).sum := by
  intro us
  induction us with
  | nil =>
    intro shares _ _ _ _ _
    exact ⟨shares, rfl, by simp⟩
  | cons u rest ih =>
    intro shares hpre hne hs he hgap
    have hval : validate_utility_coverage u s e = .ok () :=
      validate_utility_coverage_ok u s e (hne u (List.mem_cons_self _ _))
        (hs u (List.mem_cons_self _ _)) (he u (List.mem_cons_self _ _))
        (hgap u (List.mem_cons_self _ _))
    obtain ⟨shares₁, hok₁, hsum₁⟩ :=
      process_periods_ok_sum pr u.sharing_type s e hnd hca
        (hpre u (List.mem_cons_self _ _)) u.periods shares
    obtain ⟨shares', hok', hsum'⟩ := ih shares₁
      (fun v hv => hpre v (List.mem_cons_of_mem _ hv))
      (fun v hv => hne v (List.mem_cons_of_mem _ hv))
      (fun v hv => hs v (List.mem_cons_of_mem _ hv))
      (fun v hv => he v (List.mem_cons_of_mem _ hv))
      (fun v hv => hgap v (List.mem_cons_of_mem _ hv))
    refine ⟨shares', ?_, ?_⟩
    · unfold Property.process_utilities
      rw [hval, hok₁]
      exact hok'
    · rw [hsum', hsum₁, List.map_cons, List.sum_cons]
      ring

lemma process_utilities_error_head (pr : Property) (s e : Int)
    (shares : Person → ℚ) (u : Utility) (rest : List Utility) (err : CalcError)
    (h : validate_utility_coverage u s e = .error err) :
    pr.process_utilities s e shares (u :: rest) = .error err := by
  unfold Property.process_utilities
  rw [h]

lemma process_periods_error_head (pr : Property) (st : SharingType) (s e : Int)
    (shares : Person → ℚ) (p : CostPeriod) (rest : List CostPeriod)
    (err : CalcError) (h : pr.process_period st s e shares p = .error err) :
    pr.process_periods st s e shares (p :: rest) = .error err := by
  unfold Property.process_periods
  rw [h]


lemma per_area_allocated_eq (pr : Property) (hca : 0 ≤ pr.common_area) :
    occupiedPrivateArea pr + (if 0 < pr.common_area then pr.common_area else 0) =
      pr.total_area - unoccupiedPrivateArea pr := by
  have hsplit := filter_area_split pr.rooms
  unfold occupiedPrivateArea unoccupiedPrivateArea Property.total_area
  by_cases hcpos : 0 < pr.common_area
  · rw [if_pos hcpos, ← hsplit]; ring
  · have : pr.common_area = 0 := le_antisymm (not_lt.mp hcpos) hca
    rw [if_neg hcpos, this, ← hsplit]; ring

/-- **C1 (amended)**: with valid period sets and the strategies'
non-degeneracy preconditions, `calculate_shares` succeeds and the values
sum to the per-utility `cost_per_day * days_active` totals scaled by each
utility's allocated fraction (1 for per-person/per-room, and
`(total_area - unoccupied_area)/total_area` for per-area). -/
theorem claim1_amended (pr : Property) (s e : Int)
    (hnd : pr.get_occupants.Nodup)
    (hca : 0 ≤ pr.common_area)
    (hpre : ∀ u ∈ pr.utilities, strategyPre pr u.sharing_type)
    (hne : ∀ u ∈ pr.utilities, u.periods ≠ [])
    (hs : ∀ u ∈ pr.utilities, ∃ q ∈ u.periods, q.start ≤ s)
    (he : ∀ u ∈ pr.utilities, ∃ q ∈ u.periods, e ≤ q.end_)
    (hnov : ∀ u ∈ pr.utilities,
      (sortPeriods u.periods).Chain' (fun a b => a.end_ < b.start))
    (hgap : ∀ u ∈ pr.utilities, (sortPeriods u.periods).Chain' gapOne) :
    ∃ f, pr.calculate_shares s e = .ok f ∧
      sumOver pr.get_occupants f = amendedTotal pr s e := by
  obtain ⟨f, hok, hsum⟩ := process_utilities_ok_sum pr s e hnd hca
    pr.utilities (fun _ => 0) hpre hne hs he hgap
  refine ⟨f, hok, ?_⟩
  rw [hsum, sumOver_zero, zero_add]
  rfl

/-- **C1 (counterexample)**: on `prC1` the period set is valid and
spans the window, `calculate_shares` succeeds, but the returned values sum
to 80, not to the claimed `cost_per_day * days_active` total 100 — the
empty room's 20 m² share is charged to nobody. -/
theorem claim1_counterexample :
    (∀ u ∈ prC1.utilities, (sortPeriods u.periods).Chain' gapOne) ∧
    (∀ u ∈ prC1.utilities, ∃ q ∈ u.periods, q.start ≤ 0) ∧
    (∀ u ∈ prC1.utilities, ∃ q ∈ u.periods, (9 : Int) ≤ q.end_) ∧
    (prC1.calculate_shares 0 9).isOk = true ∧
    resultSum (prC1.calculate_shares 0 9) prC1.get_occupants = 80 ∧
    claimedTotalSpec prC1 0 9 = 100 ∧
    resultSum (prC1.calculate_shares 0 9) prC1.get_occupants ≠
      claimedTotalSpec prC1 0 9 := by
  have hgap : ∀ u ∈ prC1.utilities, (sortPeriods u.periods).Chain' gapOne := by
    intro u hu
    have : u = uC1 := by simpa [prC1] using hu
    subst this
    show (sortPeriods [pC1]).Chain' gapOne
    rw [sortPeriods, List.mergeSort_singleton]
    exact List.chain'_singleton _
  have hs : ∀ u ∈ prC1.utilities, ∃ q ∈ u.periods, q.start ≤ 0 := by
    intro u hu
    have : u = uC1 := by simpa [prC1] using hu
    subst this
    exact ⟨pC1, by simp [uC1], by norm_num [pC1]⟩
  have he : ∀ u ∈ prC1.utilities, ∃ q ∈ u.periods, (9 : Int) ≤ q.end_ := by
    intro u hu
    have : u = uC1 := by simpa [prC1] using hu
    subst this
    exact ⟨pC1, by simp [uC1], by norm_num [pC1]⟩
  have hpre : ∀ u ∈ prC1.utilities, strategyPre prC1 u.sharing_type := by
    intro u hu
    have : u = uC1 := by simpa [prC1] using hu
    subst this
    show strategyPre prC1 .per_area
    refine ⟨by norm_num [Property.total_area, prC1], fun _ => by simp [Property.get_occupants, prC1]⟩
  have hne : ∀ u ∈ prC1.utilities, u.periods ≠ [] := by
    intro u hu
    have : u = uC1 := by simpa [prC1] using hu
    subst this
    simp [uC1]
  obtain ⟨f, hok, hsum⟩ := process_utilities_ok_sum prC1 0 9
    (by simp [Property.get_occupants, prC1]) (by norm_num [prC1])
    prC1.utilities (fun _ => 0) hpre hne hs he hgap
  have hcalc : prC1.calculate_shares 0 9 = .ok f := hok
  have hmap : (prC1.utilities.map (fun u =>
      allocatedFraction prC1 u.sharing_type * windowTotal u.periods 0 9)).sum = 80 := by
    norm_num [prC1, uC1, pC1, allocatedFraction, windowTotal, overlapsWindow,
      cost_per_day_spec, days_active_spec, CostPeriod.duration_days,
      unoccupiedPrivateArea, Property.total_area]
  have h80 : resultSum (prC1.calculate_shares 0 9) prC1.get_occupants = 80 := by
    rw [hcalc]
    show sumOver prC1.get_occupants f = 80
    rw [hsum, sumOver_zero, zero_add, hmap]
  have h100 : claimedTotalSpec prC1 0 9 = 100 := by
    norm_num [claimedTotalSpec, prC1, uC1, pC1, windowTotal, overlapsWindow,
      cost_per_day_spec, days_active_spec, CostPeriod.duration_days]
  exact ⟨hgap, hs, he, by rw [hcalc]; rfl, h80, h100,
    by rw [h80, h100]; norm_num⟩

/-- Witness for `claim1_amended`: the one-room per-person property `prW`
over the window 0 – 4. -/
theorem claim1_witness :
    prW.get_occupants.Nodup ∧ (0 : ℚ) ≤ prW.common_area ∧
      ∃ f, prW.calculate_shares 0 4 = .ok f ∧
        sumOver prW.get_occupants f = amendedTotal prW 0 4 := by
  refine ⟨by simp [Property.get_occupants, prW], by norm_num [prW], ?_⟩
  apply claim1_amended prW 0 4 (by simp [Property.get_occupants, prW])
    (by norm_num [prW])
  · intro u hu
    have : u = ⟨"w", .per_person, [⟨0, 4, 50⟩]⟩ := by simpa [prW] using hu
    subst this
    show strategyPre prW .per_person
    simp [strategyPre, Property.get_occupants, prW]
  · intro u hu
    have : u = ⟨"w", .per_person, [⟨0, 4, 50⟩]⟩ := by simpa [prW] using hu
    subst this
    simp
  · intro u hu
    have : u = ⟨"w", .per_person, [⟨0, 4, 50⟩]⟩ := by simpa [prW] using hu
    subst this
    exact ⟨⟨0, 4, 50⟩, by simp, by norm_num⟩
  · intro u hu
    have : u = ⟨"w", .per_person, [⟨0, 4, 50⟩]⟩ := by simpa [prW] using hu
    subst this
    exact ⟨⟨0, 4, 50⟩, by simp, by norm_num⟩
  · intro u hu
    have : u = ⟨"w", .per_person, [⟨0, 4, 50⟩]⟩ := by simpa [prW] using hu
    subst this
    show (sortPeriods [⟨0, 4, 50⟩]).Chain' _
    rw [sortPeriods, List.mergeSort_singleton]
    exact List.chain'_singleton _
  · intro u hu
    have : u = ⟨"w", .per_person, [⟨0, 4, 50⟩]⟩ := by simpa [prW] using hu
    subst this
    show (sortPeriods [⟨0, 4, 50⟩]).Chain' gapOne
    rw [sortPeriods, List.mergeSort_singleton]
    exact List.chain'_singleton _

/-- **C2 (amended)**: for a per-area property with a positive common area,
non-negative room areas, at least one occupant and a duplicate-free
occupant list, the distributor succeeds, allocates nothing outside the
occupants, and (scaled by any `days_active` factor `d`) hands out
`(total_area - zero-occupant-room area) / total_area` of the daily cost —
the full daily cost exactly when every zero-occupant room has zero area,
the empty rooms' areas still counting toward `total_area`. -/
theorem claim2_amended (pr : Property) (C d : ℚ)
    (hnd : pr.get_occupants.Nodup)
    (har : ∀ room ∈ pr.rooms, 0 ≤ room.area)
    (hca : 0 < pr.common_area)
    (hunocc : ∃ room ∈ pr.rooms, room.occupants = [])
    (hocc : pr.get_occupants ≠ []) :
    ∃ f, pr.calculate_daily_shares .per_area C = .ok f ∧
      (∀ q, q ∉ pr.get_occupants → f q = 0) ∧
      sumOver pr.get_occupants f * d =
        (pr.total_area - unoccupiedPrivateArea pr) / pr.total_area * C * d := by
  have hA : pr.total_area ≠ 0 := by
    have h1 : 0 ≤ (pr.rooms.map Room.area).sum :=
      List.sum_nonneg (by
        intro x hx
        obtain ⟨room, hm, rfl⟩ := List.mem_map.mp hx
        exact har room hm)
    have : 0 < pr.total_area := by
      unfold Property.total_area
      linarith
    exact ne_of_gt this
  obtain ⟨f, hok, hzero, hsum⟩ := daily_shares_per_area_ok pr C hA (fun _ => hocc)
  refine ⟨f, hok, hzero, ?_⟩
  rw [hsum hnd, per_area_allocated_eq pr (le_of_lt hca)]

/-- **C2 (counterexample)**: on `prC1` (Alice alone in a 40 m² room, an
empty 20 m² room, common area 40) the per-area shares for a daily cost of
10 sum to 8, not to the full daily cost 10. -/
theorem claim2_counterexample :
    (∃ room ∈ prC1.rooms, room.occupants = []) ∧
    (0 : ℚ) < prC1.common_area ∧
    prC1.get_occupants ≠ [] ∧
    resultSum (prC1.calculate_daily_shares .per_area 10) prC1.get_occupants = 8 ∧
    resultSum (prC1.calculate_daily_shares .per_area 10) prC1.get_occupants ≠
      10 * 1 := by
  have hA : prC1.total_area ≠ 0 := by norm_num [Property.total_area, prC1]
  have hocc : prC1.get_occupants ≠ [] := by simp [Property.get_occupants, prC1]
  obtain ⟨f, hok, -, hsum⟩ := daily_shares_per_area_ok prC1 10 hA (fun _ => hocc)
  have h8 : resultSum (prC1.calculate_daily_shares .per_area 10)
      prC1.get_occupants = 8 := by
    rw [hok]
    show sumOver prC1.get_occupants f = 8
    rw [hsum (by simp [Property.get_occupants, prC1])]
    norm_num [occupiedPrivateArea, Property.total_area, prC1]
  exact ⟨⟨⟨"schlafzimmer", 20, []⟩, by simp [prC1], rfl⟩,
    by norm_num [prC1], hocc, h8, by rw [h8]; norm_num⟩

/-- Witness for `claim2_amended`: `prC1` with daily cost 10 and scale 3. -/
theorem claim2_witness :
    ((0 : ℚ) < prC1.common_area ∧ prC1.get_occupants ≠ []) ∧
      ∃ f, prC1.calculate_daily_shares .per_area 10 = .ok f ∧
        (∀ q, q ∉ prC1.get_occupants → f q = 0) ∧
        sumOver prC1.get_occupants f * 3 =
          (prC1.total_area - unoccupiedPrivateArea prC1) / prC1.total_area * 10 * 3 := by
  refine ⟨⟨by norm_num [prC1], by simp [Property.get_occupants, prC1]⟩, ?_⟩
  exact claim2_amended prC1 10 3 (by simp [Property.get_occupants, prC1])
    (by intro room hm; fin_cases hm <;> norm_num)
    (by norm_num [prC1])
    ⟨⟨"schlafzimmer", 20, []⟩, by simp [prC1], rfl⟩
    (by simp [Property.get_occupants, prC1])

/-- **C3**: inside `calculate_shares`, a period is skipped exactly when
`period.end < start ∨ period.start > end`; otherwise the per-day cost is
the period's cost over its own full inclusive duration, the distributor is
invoked once on it, and each occupant's daily share is scaled by the
inclusive day count of the effective overlap before accumulation. -/
theorem claim3_period_processing (pr : Property) (st : SharingType) (s e : Int)
    (shares : Person → ℚ) (p : CostPeriod) :
    ((p.end_ < s ∨ p.start > e) → pr.process_period st s e shares p = .ok shares) ∧
    (¬ (p.end_ < s ∨ p.start > e) →
      pr.process_period st s e shares p =
        match pr.calculate_daily_shares st (cost_per_day_spec p) with
        | .error err => .error err
        | .ok daily_shares =>
          .ok (fun q => shares q +
            daily_shares q * ((days_active_spec p s e : Int) : ℚ))) :=
  ⟨process_period_skip pr st s e shares p, process_period_active pr st s e shares p⟩

/-- Witness for `claim3_period_processing`: a period ending before the
window is skipped, leaving the accumulator untouched. -/
theorem claim3_witness :
    ((9 : Int) < 20 ∨ (0 : Int) > 30) ∧
      prW.process_period .per_person 20 30 (fun _ => 0) ⟨0, 9, 50⟩ =
        .ok (fun _ => 0) :=
  ⟨by norm_num,
    (claim3_period_processing prW .per_person 20 30 (fun _ => 0) ⟨0, 9, 50⟩).1
      (by norm_num)⟩

/-- **C7**: the per-person distributor fails with `NoOccupantsError` iff the
property has no occupants; otherwise each of the `N` occupants receives
`C/N` per day (`C/N * days_active` per period) and the occupants' shares
sum to `C` (`C * days_active` per period). -/
theorem claim7_per_person (pr : Property) (C d : ℚ)
    (hnd : pr.get_occupants.Nodup) :
    (pr.calculate_daily_shares .per_person C = .error CalcError.noOccupants ↔
      pr.get_occupants = []) ∧
    (pr.get_occupants ≠ [] →
      ∃ f, pr.calculate_daily_shares .per_person C = .ok f ∧
        (∀ q ∈ pr.get_occupants,
          f q * d = C / (pr.get_occupants.length : ℚ) * d) ∧
        sumOver pr.get_occupants f * d = C * d) := by
  refine ⟨daily_shares_per_person_error_iff pr C, ?_⟩
  intro hocc
  refine ⟨_, daily_shares_per_person_eq pr C hocc, ?_, ?_⟩
  · intro q hq
    rw [if_pos hq]
  · rw [sumOver_congr _ _ (fun _ => C / (pr.get_occupants.length : ℚ))
      (fun q hq => if_pos hq), sumOver_const, mul_comm (pr.get_occupants.length : ℚ),
      div_mul_cancel₀ _ (length_ne_zero_q hocc)]

/-- Witness for `claim7_per_person`: two occupants sharing cost 30 for two
days: 15 each per day, 30 per day in total. -/
theorem claim7_witness :
    ((⟨[⟨"a", 10, [0, 1]⟩], 0, []⟩ : Property).get_occupants.Nodup ∧
      (⟨[⟨"a", 10, [0, 1]⟩], 0, []⟩ : Property).get_occupants ≠ []) ∧
      ∃ f, (⟨[⟨"a", 10, [0, 1]⟩], 0, []⟩ :
          Property).calculate_daily_shares .per_person 30 = .ok f ∧
        (∀ q ∈ (⟨[⟨"a", 10, [0, 1]⟩], 0, []⟩ : Property).get_occupants,
          f q * 2 = 30 / ((⟨[⟨"a", 10, [0, 1]⟩], 0, []⟩ :
            Property).get_occupants.length : ℚ) * 2) ∧
        sumOver (⟨[⟨"a", 10, [0, 1]⟩], 0, []⟩ : Property).get_occupants f * 2 =
          30 * 2 := by
  refine ⟨⟨by simp [Property.get_occupants], by simp [Property.get_occupants]⟩, ?_⟩
  exact (claim7_per_person ⟨[⟨"a", 10, [0, 1]⟩], 0, []⟩ 30 2
    (by simp [Property.get_occupants])).2 (by simp [Property.get_occupants])

/-- **C8**: the per-room distributor fails with `NoOccupiedRoomsError` iff
no room has an occupant; otherwise nobody outside the occupant list gets a
share, every occupant of an occupied room gets the daily cost divided by
the number of occupied rooms and then by the room's occupant count, and the
shares sum to the full daily cost. -/
theorem claim8_per_room (pr : Property) (C : ℚ)
    (hnd : pr.get_occupants.Nodup) :
    (pr.calculate_daily_shares .per_room C = .error CalcError.noOccupiedRooms ↔
      ∀ room ∈ pr.rooms, room.occupants = []) ∧
    ((∃ room ∈ pr.rooms, room.occupants ≠ []) →
      ∃ f, pr.calculate_daily_shares .per_room C = .ok f ∧
        (∀ q, q ∉ pr.get_occupants → f q = 0) ∧
        (∀ room ∈ pr.rooms, room.occupants ≠ [] → ∀ q ∈ room.occupants,
          f q = C /
            ((pr.rooms.filter (fun rm => !rm.occupants.isEmpty)).length : ℚ) /
            (room.occupants.length : ℚ)) ∧
        sumOver pr.get_occupants f = C) := by
  refine ⟨daily_shares_per_room_error_iff pr C, ?_⟩
  intro hocc
  obtain ⟨f, hok, hzero, hsum, hval⟩ := daily_shares_per_room_ok pr C hocc
  exact ⟨f, hok, hzero, hval hnd, hsum hnd⟩

/-- Witness for `claim8_per_room`: person 0 alone in an occupied room next
to an empty room receives the whole daily cost. -/
theorem claim8_witness :
    ((⟨[⟨"a", 10, [0]⟩, ⟨"b", 5, []⟩], 0, []⟩ : Property).get_occupants.Nodup ∧
      ∃ room ∈ (⟨[⟨"a", 10, [0]⟩, ⟨"b", 5, []⟩], 0, []⟩ : Property).rooms,
        room.occupants ≠ []) ∧
      ∃ f, (⟨[⟨"a", 10, [0]⟩, ⟨"b", 5, []⟩], 0, []⟩ :
          Property).calculate_daily_shares .per_room 6 = .ok f ∧
        (∀ q, q ∉ (⟨[⟨"a", 10, [0]⟩, ⟨"b", 5, []⟩], 0, []⟩ :
          Property).get_occupants → f q = 0) ∧
        (∀ room ∈ (⟨[⟨"a", 10, [0]⟩, ⟨"b", 5, []⟩], 0, []⟩ : Property).rooms,
          room.occupants ≠ [] → ∀ q ∈ room.occupants,
          f q = 6 /
            (((⟨[⟨"a", 10, [0]⟩, ⟨"b", 5, []⟩], 0, []⟩ :
              Property).rooms.filter (fun rm => !rm.occupants.isEmpty)).length : ℚ) /
            (room.occupants.length : ℚ)) ∧
        sumOver (⟨[⟨"a", 10, [0]⟩, ⟨"b", 5, []⟩], 0, []⟩ :
          Property).get_occupants f = 6 := by
  refine ⟨⟨by simp [Property.get_occupants],
    ⟨⟨"a", 10, [0]⟩, by simp, by simp⟩⟩, ?_⟩
  exact (claim8_per_room ⟨[⟨"a", 10, [0]⟩, ⟨"b", 5, []⟩], 0, []⟩ 6
    (by simp [Property.get_occupants])).2 ⟨⟨"a", 10, [0]⟩, by simp, by simp⟩

lemma process_utilities_cons_ok (pr : Property) (s e : Int)
    (shares : Person → ℚ) (u : Utility) (rest : List Utility)
    (hok : validate_utility_coverage u s e = .ok ()) :
    pr.process_utilities s e shares (u :: rest) =
      match pr.process_periods u.sharing_type s e shares u.periods with
      | .error err => .error err
      | .ok shares' => pr.process_utilities s e shares' rest := by
  have hstep : pr.process_utilities s e shares (u :: rest) =
      match validate_utility_coverage u s e with
      | .error err => .error err
      | .ok _ =>
        match pr.process_periods u.sharing_type s e shares u.periods with
        | .error err => .error err
        | .ok shares' => pr.process_utilities s e shares' rest := rfl
  rw [hstep, hok]

/-- **C9**: the embedding of `calculate_shares` is a pure function of the
property (the Python methods never assign to `self` or its components, so
the state-free embedding is faithful); an error result excludes any
returned mapping, and the first failure — a coverage-validation error or a
distributor error on some period — aborts the whole computation with that
very error, skipping everything after it. -/
theorem claim9_immutability_fail_fast (pr : Property) (s e : Int) :
    (∀ err, pr.calculate_shares s e = .error err →
      ∀ f, pr.calculate_shares s e ≠ .ok f) ∧
    (∀ (shares : Person → ℚ) (u : Utility) (rest : List Utility)
        (err : CalcError),
      validate_utility_coverage u s e = .error err →
      pr.process_utilities s e shares (u :: rest) = .error err) ∧
    (∀ (shares : Person → ℚ) (st : SharingType) (p : CostPeriod)
        (rest : List CostPeriod) (err : CalcError),
      pr.process_period st s e shares p = .error err →
      pr.process_periods st s e shares (p :: rest) = .error err) := by
  refine ⟨?_, ?_, ?_⟩
  · intro err herr f hok
    rw [herr] at hok
    exact Except.noConfusion hok
  · exact fun shares u rest err h =>
      process_utilities_error_head pr s e shares u rest err h
  · exact fun shares st p rest err h =>
      process_periods_error_head pr st s e shares p rest err h

/-- Witness for `claim9_immutability_fail_fast`: a coverage failure on the
head utility aborts the whole pass with that error. -/
theorem claim9_witness :
    validate_utility_coverage uElec 0 6 = .error CalcError.coverageGap ∧
      prW.process_utilities 0 6 (fun _ => 0) [uElec] =
        .error CalcError.coverageGap := by
  have h : validate_utility_coverage uElec 0 6 = .error CalcError.coverageGap := rfl
  exact ⟨h,
    (claim9_immutability_fail_fast prW 0 6).2.1 (fun _ => 0) uElec [] _ h⟩

/-- **C10**: on a per-area property with positive total and common area but
no occupants anywhere, `calculate_shares` dies on the unguarded division of
the common-area share by the occupant count zero (Python
`ZeroDivisionError`) instead of returning a mapping or raising an error of
the spec's taxonomy. -/
theorem claim10_division_by_zero :
    prC10.calculate_shares 0 9 = .error CalcError.zeroDivision := by
  have hval : validate_utility_coverage uC10 0 9 = .ok () := by
    apply validate_utility_coverage_ok
    · simp [uC10]
    · exact ⟨pC10, by simp [uC10], by norm_num [pC10]⟩
    · exact ⟨pC10, by simp [uC10], by norm_num [pC10]⟩
    · show (sortPeriods [pC10]).Chain' gapOne
      rw [sortPeriods, List.mergeSort_singleton]
      exact List.chain'_singleton _
  have hdaily : prC10.calculate_daily_shares .per_area (cost_per_day_spec pC10) =
      .error .zeroDivision :=
    daily_shares_per_area_zeroDivision prC10 _
      (by norm_num [Property.total_area, prC10])
      (by norm_num [prC10])
      (by simp [Property.get_occupants, prC10])
  have hpp : prC10.process_period .per_area 0 9 (fun _ => 0) pC10 =
      .error .zeroDivision := by
    rw [process_period_active prC10 .per_area 0 9 (fun _ => 0) pC10
      (by norm_num [pC10]), hdaily]
  have hpps : prC10.process_periods uC10.sharing_type 0 9 (fun _ => 0) uC10.periods =
      .error .zeroDivision :=
    process_periods_error_head prC10 .per_area 0 9 (fun _ => 0) pC10 [] _ hpp
  show prC10.process_utilities 0 9 (fun _ => 0) [uC10] = .error CalcError.zeroDivision
  rw [process_utilities_cons_ok prC10 0 9 (fun _ => 0) uC10 [] hval, hpps]

